import Mathlib

/-!
# rqt_image_view: `RatioLayoutedFrame`

A shallow embedding of `src/rqt_image_view/ratio_layouted_frame.cpp`.

* C++ `int` values are mathematical integers (`Int`).  Signed overflow is
  undefined behaviour in C++, so the model describes the executions in which
  no intermediate value leaves the `int` range.  `/` and `%` on `int` are the
  truncating `Int.tdiv` and `Int.tmod`.
* The conversion of an `int` argument to an `unsigned short` parameter is
  reduction modulo `2 ^ 16`.
* A `double` in `resizeToFitAspectRatio` is the rational it represents, and
  every `double` operation is the exact operation followed by the rounding
  `fl` to binary64 (53 significant bits, round to nearest, ties to even).
  The cast `int(x)` truncates toward zero.
* A division by zero, which is undefined behaviour for `int` and gives an
  infinity or a NaN for `double`, has no counterpart in the model: the
  statements that depend on a divisor assume it positive.
* `QRect`, `QSize`, `QImage` and `QMouseEvent` are the Qt value classes the
  file uses; only the members the file calls are modelled.  A `QRect` stores
  its two corners inclusively, as Qt does.
* A member function of the widget becomes a function from the widget state
  to the new state and the list of signals it emits.
-/

namespace rqt_image_view

/-! ## Qt value classes -/

/-- Value of `Qt::LeftButton`. -/
def LeftButton : Nat := 1

/-- Value of `Qt::RightButton`. -/
def RightButton : Nat := 2

/-- Qt rectangle: the inclusive corners `(x1, y1)` and `(x2, y2)`. -/
structure QRect where
  x1 : Int
  y1 : Int
  x2 : Int
  y2 : Int
deriving DecidableEq, Repr

namespace QRect

/-- Default constructor `QRect()`: the null rectangle `(0, 0, -1, -1)`. -/
def null : QRect := ⟨0, 0, -1, -1⟩

/-- Constructor `QRect(left, top, width, height)`. -/
def ofLTWH (left top width height : Int) : QRect :=
  ⟨left, top, left + width - 1, top + height - 1⟩

/-- Member `QRect::left()`. -/
def left (r : QRect) : Int := r.x1

/-- Member `QRect::top()`. -/
def top (r : QRect) : Int := r.y1

/-- Member `QRect::right()`: the inclusive right edge. -/
def right (r : QRect) : Int := r.x2

/-- Member `QRect::bottom()`: the inclusive bottom edge. -/
def bottom (r : QRect) : Int := r.y2

/-- Member `QRect::x()`. -/
def x (r : QRect) : Int := r.x1

/-- Member `QRect::y()`. -/
def y (r : QRect) : Int := r.y1

/-- Member `QRect::width()`. -/
def width (r : QRect) : Int := r.x2 - r.x1 + 1

/-- Member `QRect::height()`. -/
def height (r : QRect) : Int := r.y2 - r.y1 + 1

/-- Member `QRect::setX(x)`: moves the left edge, keeps the right edge. -/
def setX (r : QRect) (x : Int) : QRect := { r with x1 := x }

/-- Member `QRect::setY(y)`: moves the top edge, keeps the bottom edge. -/
def setY (r : QRect) (y : Int) : QRect := { r with y1 := y }

/-- Member `QRect::setWidth(w)`: the right edge becomes `x1 + w - 1`. -/
def setWidth (r : QRect) (w : Int) : QRect := { r with x2 := r.x1 + w - 1 }

/-- Member `QRect::setHeight(h)`: the bottom edge becomes `y1 + h - 1`. -/
def setHeight (r : QRect) (h : Int) : QRect := { r with y2 := r.y1 + h - 1 }

end QRect

/-- Qt size: a width and a height. -/
structure QSize where
  wd : Int
  ht : Int
deriving DecidableEq, Repr

namespace QSize

/-- Member `QSize::width()`. -/
def width (s : QSize) : Int := s.wd

/-- Member `QSize::height()`. -/
def height (s : QSize) : Int := s.ht

/-- Member `QSize::setWidth(w)`. -/
def setWidth (s : QSize) (w : Int) : QSize := { s with wd := w }

/-- Member `QSize::setHeight(h)`. -/
def setHeight (s : QSize) (h : Int) : QSize := { s with ht := h }

end QSize

/-- Qt image, reduced to what the widget reads: either the null image or a
bitmap of the given width and height. -/
inductive QImage where
  | null : QImage
  | bitmap (w h : Int) : QImage
deriving DecidableEq, Repr

namespace QImage

/-- Member `QImage::isNull()`. -/
def isNull : QImage → Bool
  | null => true
  | bitmap _ _ => false

/-- Member `QImage::width()`: zero for the null image. -/
def width : QImage → Int
  | null => 0
  | bitmap w _ => w

/-- Member `QImage::height()`: zero for the null image. -/
def height : QImage → Int
  | null => 0
  | bitmap _ h => h

/-- Member `QImage::copy()`. -/
def copy (i : QImage) : QImage := i

end QImage

/-- Qt mouse event: the position, the button that caused the event
(`button()`) and the mask of the buttons held down (`buttons()`). -/
structure QMouseEvent where
  x : Int
  y : Int
  button : Nat
  buttons : Nat
deriving DecidableEq, Repr

/-- Signals of `RatioLayoutedFrame`. -/
inductive Signal where
  | delayed_update : Signal
  | roi_selected (r : QRect) : Signal
  | roi_started : Signal
  | mouseLeft (x y : Int) : Signal
deriving DecidableEq, Repr

/-! ## The widget -/

/-- State of a `RatioLayoutedFrame`: its data members, together with the two
values it reads from its `QFrame` base, `contentsRect()` and `lineWidth()`.
`outer_layout_` holds the content rectangle of the outer layout when one has
been set. -/
structure RatioLayoutedFrame where
  outer_layout_ : Option QRect
  qimage_ : QImage
  aspect_ratio_ : QSize
  roi_rect_ : QRect
  drag_flag_ : Bool
  image_freeze_ : Bool
  roi_select_enabled_flag_ : Bool
  smoothImage_ : Bool
  contentsRect : QRect
  lineWidth : Int
deriving DecidableEq, Repr

/-- Constructor (lines 40-50): no outer layout, aspect ratio 4:3, all flags
false; the image and the selection rectangle are default-constructed. -/
def RatioLayoutedFrame.init (contents : QRect) (border : Int) : RatioLayoutedFrame :=
  { outer_layout_ := none
    qimage_ := QImage.null
    aspect_ratio_ := ⟨4, 3⟩
    roi_rect_ := QRect.null
    drag_flag_ := false
    image_freeze_ := false
    roi_select_enabled_flag_ := false
    smoothImage_ := false
    contentsRect := contents
    lineWidth := border }

/-- Function `greatestCommonDivisor` (lines 311-318). -/
def greatestCommonDivisor (a b : Int) : Int :=
  if h : b = 0 then a else greatestCommonDivisor b (a.tmod b)
termination_by b.natAbs
decreasing_by
  have hpos : 0 < b.natAbs := Int.natAbs_pos.mpr h
  have h1 : (a.tmod b).natAbs = a.natAbs % b.natAbs := by
    cases a <;> cases b <;> simp [Int.tmod, Int.natAbs_neg] <;> rfl
  rw [h1]
  exact Nat.mod_lt _ hpos

/-- Conversion of an `int` to `unsigned short`. -/
def toUShort (n : Int) : Int := n % 65536

/-- Function `setAspectRatio` (lines 263-270).  The arguments arrive as
`int` and are converted to the `unsigned short` parameters. -/
def setAspectRatio (s : RatioLayoutedFrame) (w h : Int) : RatioLayoutedFrame :=
  let width := toUShort w
  let height := toUShort h
  let divisor := greatestCommonDivisor width height
  if divisor ≠ 0 then
    { s with aspect_ratio_ :=
        (s.aspect_ratio_.setWidth (width.tdiv divisor)).setHeight (height.tdiv divisor) }
  else s

/-- Function `setImage` (lines 70-77). -/
def setImage (s : RatioLayoutedFrame) (image : QImage) : RatioLayoutedFrame × List Signal :=
  let s1 := { s with qimage_ := image.copy }
  let s2 := setAspectRatio s1 s1.qimage_.width s1.qimage_.height
  (s2, [Signal.delayed_update])

/-- Rounding of a rational to the nearest integer, ties to the even one. -/
def roundHalfEven (t : ℚ) : Int :=
  if t - ⌊t⌋ < 1 / 2 then ⌊t⌋
  else if 1 / 2 < t - ⌊t⌋ then ⌊t⌋ + 1
  else if ⌊t⌋ % 2 = 0 then ⌊t⌋ else ⌊t⌋ + 1

/-- Rounding of an exact result to `double` (IEEE 754 binary64, round to
nearest, ties to even): the nearest multiple of `2 ^ (e - 52)`, where
`2 ^ e ≤ |x| < 2 ^ (e + 1)`.  The exponent is not bounded, so the model
agrees with binary64 wherever a result neither overflows nor underflows. -/
def fl (x : ℚ) : ℚ :=
  if x = 0 then 0
  else (roundHalfEven (x / (2 : ℚ) ^ (Int.log 2 |x| - 52)) : ℚ) * (2 : ℚ) ^ (Int.log 2 |x| - 52)

/-- Cast `int(x)` of a `double`: truncation toward zero. -/
def toInt (x : ℚ) : Int := if 0 ≤ x then ⌊x⌋ else ⌈x⌉

/-- Function `resizeToFitAspectRatio` (lines 79-119).  Returns the local
`rect` after `setWidth` and `setHeight` (lines 113-114) and the two arguments
of the final `resize` call (line 118).  A `double` is the rational it
represents; the conversions from `int` and the constant `0.5` are exact, and
each of `/`, `*`, `+` on `double` is the exact operation followed by `fl`. -/
def resizeToFitAspectRatio (s : RatioLayoutedFrame) : QRect × Int × Int :=
  let rect := s.contentsRect
  let wh : ℚ × ℚ :=
    match s.outer_layout_ with
    | some l => ((l.width : ℚ), (l.height : ℚ))
    | none => ((rect.width : ℚ), (rect.height : ℚ))
  let width := wh.1
  let height := wh.2
  let layout_ar := fl (width / height)
  let image_ar := fl ((s.aspect_ratio_.width : ℚ) / (s.aspect_ratio_.height : ℚ))
  let wh2 : ℚ × ℚ :=
    if layout_ar > image_ar then (fl (height * image_ar), height)
    else (width, fl (width / image_ar))
  let rect := rect.setWidth (toInt (fl (wh2.1 + 1 / 2)))
  let rect := rect.setHeight (toInt (fl (wh2.2 + 1 / 2)))
  let border := s.lineWidth
  (rect, rect.width + 2 * border, rect.height + 2 * border)

/-- Function `roi_select_enabled` (lines 150-153). -/
def roi_select_enabled (s : RatioLayoutedFrame) (checked : Bool) : RatioLayoutedFrame :=
  { s with roi_select_enabled_flag_ := checked }

/-- The four locals `left`, `top`, `width`, `height` of `mouseReleaseEvent`. -/
structure Roi where
  left : Int
  top : Int
  width : Int
  height : Int
deriving DecidableEq, Repr

/-- Lines 179-195 of `mouseReleaseEvent`: the final rectangle coordinates
read off `roi_rect_`, a negative extent taking the opposite edge. -/
def roiNormalize (roi_rect_ : QRect) : Roi :=
  let lw : Int × Int :=
    if roi_rect_.width < 0 then (roi_rect_.right, -roi_rect_.width)
    else (roi_rect_.left, roi_rect_.width)
  let th : Int × Int :=
    if roi_rect_.height < 0 then (roi_rect_.bottom, -roi_rect_.height)
    else (roi_rect_.top, roi_rect_.height)
  ⟨lw.1, th.1, lw.2, th.2⟩

/-- Lines 197-216 of `mouseReleaseEvent`: negative left and top, and width
and height out of bounds. -/
def roiClamp (image_window_rect : QRect) (r : Roi) : Roi :=
  let lw : Int × Int :=
    if r.left < 0 then (0, r.width + r.left)
    else if r.width > image_window_rect.width then (r.left, image_window_rect.width)
    else (r.left, r.width)
  let th : Int × Int :=
    if r.top < 0 then (0, r.height + r.top)
    else if r.height > image_window_rect.height then (r.top, image_window_rect.height)
    else (r.top, r.height)
  ⟨lw.1, th.1, lw.2, th.2⟩

/-- Lines 217-221 of `mouseReleaseEvent`: the scaling to image pixels.  The
source divides by the content width and height unguarded, so the result is
meaningful only when both are non-zero. -/
def roiScale (image_window_rect : QRect) (qimage_width qimage_height : Int) (r : Roi) : Roi :=
  ⟨(r.left * qimage_width).tdiv image_window_rect.width,
   (r.top * qimage_height).tdiv image_window_rect.height,
   (r.width * qimage_width).tdiv image_window_rect.width,
   (r.height * qimage_height).tdiv image_window_rect.height⟩

/-- Function `mouseReleaseEvent` (lines 155-224). -/
def mouseReleaseEvent (s : RatioLayoutedFrame) (event : QMouseEvent) :
    RatioLayoutedFrame × List Signal :=
  if s.drag_flag_ && s.roi_select_enabled_flag_ && event.button == LeftButton then
    let s1 := { s with drag_flag_ := false, image_freeze_ := false }
    if !s1.qimage_.isNull then
      let image_window_rect := s1.contentsRect
      let qimage_width : Int := s1.qimage_.width.natAbs
      let qimage_height : Int := s1.qimage_.height.natAbs
      let r := roiScale image_window_rect qimage_width qimage_height
        (roiClamp image_window_rect (roiNormalize s1.roi_rect_))
      (s1, [Signal.roi_selected (QRect.ofLTWH r.left r.top r.width r.height)])
    else
      (s1, [])
  else
    (s, [])

/-- Function `mouseMoveEvent` (lines 226-237). -/
def mouseMoveEvent (s : RatioLayoutedFrame) (event : QMouseEvent) :
    RatioLayoutedFrame × List Signal :=
  if s.drag_flag_ && s.roi_select_enabled_flag_ then
    let width := event.x - s.roi_rect_.x
    let height := event.y - s.roi_rect_.y
    ({ s with roi_rect_ := (s.roi_rect_.setHeight height).setWidth width },
     [Signal.delayed_update])
  else
    (s, [])

/-- Function `mousePressEvent` (lines 239-261).  The final call of
`QFrame::mousePressEvent` touches none of the modelled members. -/
def mousePressEvent (s : RatioLayoutedFrame) (event : QMouseEvent) :
    RatioLayoutedFrame × List Signal :=
  let r1 : RatioLayoutedFrame × List Signal :=
    if s.roi_select_enabled_flag_ then
      if event.buttons == LeftButton then
        let s1 := { s with roi_rect_ := (s.roi_rect_.setX event.x).setY event.y }
        if s1.image_freeze_ == true then ({ s1 with drag_flag_ := true }, [])
        else (s1, [])
      else if event.buttons == RightButton then
        ({ s with image_freeze_ := true }, [Signal.roi_started])
      else (s, [])
    else (s, [])
  if event.button == LeftButton then
    (r1.1, r1.2 ++ [Signal.mouseLeft event.x event.y])
  else r1

/-- Function `onSmoothImageChanged` (lines 320-322). -/
def onSmoothImageChanged (s : RatioLayoutedFrame) (checked : Bool) : RatioLayoutedFrame :=
  { s with smoothImage_ := checked }

/-! ## Runs of the widget -/

/-- A call of one of the six members that touch the selection flags or are
driven by the host. -/
inductive Call where
  | mousePressEvent (e : QMouseEvent) : Call
  | mouseMoveEvent (e : QMouseEvent) : Call
  | mouseReleaseEvent (e : QMouseEvent) : Call
  | roi_select_enabled (checked : Bool) : Call
  | setImage (image : QImage) : Call
  | onSmoothImageChanged (checked : Bool) : Call
deriving DecidableEq, Repr

/-- State after one call. -/
def step (s : RatioLayoutedFrame) : Call → RatioLayoutedFrame
  | Call.mousePressEvent e => (mousePressEvent s e).1
  | Call.mouseMoveEvent e => (mouseMoveEvent s e).1
  | Call.mouseReleaseEvent e => (mouseReleaseEvent s e).1
  | Call.roi_select_enabled c => roi_select_enabled s c
  | Call.setImage i => (setImage s i).1
  | Call.onSmoothImageChanged c => onSmoothImageChanged s c

/-- State after a sequence of calls. -/
def run (s : RatioLayoutedFrame) (calls : List Call) : RatioLayoutedFrame :=
  calls.foldl step s

/-- States reachable from a freshly constructed widget. -/
def Reachable (s : RatioLayoutedFrame) : Prop :=
  ∃ contents border calls, run (RatioLayoutedFrame.init contents border) calls = s

/-- A left press: the left button caused the event and is the only one held. -/
def leftPress (x y : Int) : QMouseEvent := ⟨x, y, LeftButton, LeftButton⟩

/-- A right press: the right button caused the event and is the only one held. -/
def rightPress (x y : Int) : QMouseEvent := ⟨x, y, RightButton, RightButton⟩

/-- A move with the left button held. -/
def leftMove (x y : Int) : QMouseEvent := ⟨x, y, 0, LeftButton⟩

/-- A release of the left button, after which no button is held. -/
def leftRelease (x y : Int) : QMouseEvent := ⟨x, y, LeftButton, 0⟩

/-- The range of a C++ `int`. -/
def inIntRange (n : Int) : Prop := -2147483648 ≤ n ∧ n ≤ 2147483647

instance (n : Int) : Decidable (inIntRange n) := by
  unfold inIntRange; infer_instance

/-! ## Example states -/

/-- A widget in mid-drag over a 640×480 image shown in a 320×240 content
rectangle, the selection being `(10, 20, 100, 50)`. -/
def draggingExample : RatioLayoutedFrame :=
  { outer_layout_ := none
    qimage_ := QImage.bitmap 640 480
    aspect_ratio_ := ⟨4, 3⟩
    roi_rect_ := QRect.ofLTWH 10 20 100 50
    drag_flag_ := true
    image_freeze_ := true
    roi_select_enabled_flag_ := true
    smoothImage_ := false
    contentsRect := QRect.ofLTWH 1 1 320 240
    lineWidth := 1 }

/-- An armed widget (selection enabled, image frozen, no drag yet) showing a
100×100 image in a 100×100 content rectangle, with its default-constructed
selection rectangle. -/
def armedExample : RatioLayoutedFrame :=
  { outer_layout_ := none
    qimage_ := QImage.bitmap 100 100
    aspect_ratio_ := ⟨1, 1⟩
    roi_rect_ := QRect.null
    drag_flag_ := false
    image_freeze_ := true
    roi_select_enabled_flag_ := true
    smoothImage_ := false
    contentsRect := QRect.ofLTWH 0 0 100 100
    lineWidth := 0 }

/-- The armed widget of `armedExample` inside a frame border of 5 pixels: the
widget is 110×110 and its content rectangle is the inner 100×100. -/
def borderExample : RatioLayoutedFrame :=
  { armedExample with contentsRect := QRect.ofLTWH 5 5 100 100, lineWidth := 5 }

/-- An earlier drag from `(0, 0)` to `(50, 50)`, released, after which a
right press arms the widget again. -/
def earlierDrag : List Call :=
  [Call.mousePressEvent (leftPress 0 0), Call.mouseMoveEvent (leftMove 50 50),
   Call.mouseReleaseEvent (leftRelease 50 50), Call.mousePressEvent (rightPress 50 50)]

/-- A drag started on a fresh widget, during which the host switches
selection off. -/
def disabledMidDrag : List Call :=
  [Call.roi_select_enabled true, Call.mousePressEvent (rightPress 0 0),
   Call.mousePressEvent (leftPress 0 0), Call.roi_select_enabled false]

/-- A drag started on a fresh widget: selection on, right press, left press. -/
def startDrag : List Call :=
  [Call.roi_select_enabled true, Call.mousePressEvent (rightPress 0 0),
   Call.mousePressEvent (leftPress 0 0)]

/-- A fresh widget (stored aspect ratio 4:3, no outer layout) whose content
rectangle offers 800×450, inside a frame border of 1. -/
def fitExample : RatioLayoutedFrame :=
  RatioLayoutedFrame.init (QRect.ofLTWH 1 1 800 450) 1

/-- A widget with the stored aspect ratio 14:3 (as `setImage` leaves it for a
14×3 image) and no outer layout, whose content rectangle offers 35×12. -/
def tieExample : RatioLayoutedFrame :=
  { RatioLayoutedFrame.init (QRect.ofLTWH 0 0 35 12) 0 with
    qimage_ := QImage.bitmap 14 3, aspect_ratio_ := ⟨14, 3⟩ }

/-- A widget with the stored aspect ratio 13:6 and no outer layout, whose
content rectangle offers 108×27. -/
def tieWidthExample : RatioLayoutedFrame :=
  { RatioLayoutedFrame.init (QRect.ofLTWH 0 0 108 27) 0 with
    qimage_ := QImage.bitmap 13 6, aspect_ratio_ := ⟨13, 6⟩ }

/-! ## Aspect-ratio reduction -/

/-- On non-negative arguments the recursion of `greatestCommonDivisor`
returns the greatest common divisor. -/
theorem greatestCommonDivisor_eq_gcd (a b : Int) (ha : 0 ≤ a) (hb : 0 ≤ b) :
    greatestCommonDivisor a b = (Int.gcd a b : Int) := by
  induction a, b using greatestCommonDivisor.induct with
  | case1 a =>
    rw [greatestCommonDivisor]; simp
    exact (abs_of_nonneg ha).symm
  | case2 a b hne ih =>
    rw [greatestCommonDivisor, dif_neg hne, ih hb (Int.tmod_nonneg b ha)]
    rw [Int.tmod_eq_emod ha hb]
    lift a to Nat using ha
    lift b to Nat using hb
    rw [← Int.ofNat_emod, Int.gcd_natCast_natCast, Int.gcd_natCast_natCast,
      Nat.gcd_comm b (a % b), ← Nat.gcd_rec, Nat.gcd_comm]

theorem toUShort_nonneg (n : Int) : 0 ≤ toUShort n :=
  Int.emod_nonneg n (by decide)

theorem toUShort_of_inRange (n : Int) (h0 : 0 ≤ n) (h1 : n ≤ 65535) : toUShort n = n :=
  Int.emod_eq_of_lt h0 (by omega)

/-- The aspect ratio stored by `setImage`, with the recursion of
`greatestCommonDivisor` replaced by its value. -/
theorem setImage_stores (s : RatioLayoutedFrame) (image : QImage) :
    (setImage s image).1.aspect_ratio_ =
      if (Int.gcd (toUShort image.width) (toUShort image.height) : Int) ≠ 0 then
        ⟨(toUShort image.width).tdiv (Int.gcd (toUShort image.width) (toUShort image.height)),
         (toUShort image.height).tdiv (Int.gcd (toUShort image.width) (toUShort image.height))⟩
      else s.aspect_ratio_ := by
  simp only [setImage, setAspectRatio, QImage.copy,
    greatestCommonDivisor_eq_gcd _ _ (toUShort_nonneg _) (toUShort_nonneg _)]
  split <;> rfl

/-- C3 (as amended): for an image of width `w` and height `h` with
`1 ≤ w, h ≤ 65535`, `setImage` stores the aspect ratio `(w / g, h / g)` with
`g = gcd w h`; its components are coprime and in the proportion `w : h`. -/
theorem setImage_aspect_ratio_reduced (s : RatioLayoutedFrame) (w h : Int)
    (hw1 : 1 ≤ w) (hw2 : w ≤ 65535) (hh1 : 1 ≤ h) (hh2 : h ≤ 65535) :
    (setImage s (QImage.bitmap w h)).1.aspect_ratio_ =
        ⟨w / (Int.gcd w h : Int), h / (Int.gcd w h : Int)⟩ ∧
      Int.gcd (w / (Int.gcd w h : Int)) (h / (Int.gcd w h : Int)) = 1 ∧
      (w / (Int.gcd w h : Int)) * h = (h / (Int.gcd w h : Int)) * w := by
  have hg : 0 < Int.gcd w h := Int.gcd_pos_of_ne_zero_left h (by omega)
  have hgz : (0 : Int) ≤ (Int.gcd w h : Int) := Int.ofNat_nonneg _
  refine ⟨?_, Int.gcd_div_gcd_div_gcd hg, ?_⟩
  · rw [setImage_stores]
    simp only [QImage.width, QImage.height,
      toUShort_of_inRange w (by omega) hw2, toUShort_of_inRange h (by omega) hh2]
    rw [if_pos (by exact_mod_cast hg.ne'),
      Int.tdiv_eq_ediv (by omega) hgz, Int.tdiv_eq_ediv (by omega) hgz]
  · have h1 : w / (Int.gcd w h : Int) * (Int.gcd w h : Int) = w :=
      Int.ediv_mul_cancel (Int.gcd_dvd_left)
    have h2 : h / (Int.gcd w h : Int) * (Int.gcd w h : Int) = h :=
      Int.ediv_mul_cancel (Int.gcd_dvd_right)
    calc w / (Int.gcd w h : Int) * h
        = w / (Int.gcd w h : Int) * (h / (Int.gcd w h : Int) * (Int.gcd w h : Int)) := by
          rw [h2]
      _ = h / (Int.gcd w h : Int) * (w / (Int.gcd w h : Int) * (Int.gcd w h : Int)) := by
          ring
      _ = h / (Int.gcd w h : Int) * w := by rw [h1]

/-- C3, witness: a 1920×1080 image stores 16:9. -/
theorem setImage_aspect_ratio_reduced_witness :
    (1 : Int) ≤ 1920 ∧ (1920 : Int) ≤ 65535 ∧ (1 : Int) ≤ 1080 ∧ (1080 : Int) ≤ 65535 ∧
      (setImage (RatioLayoutedFrame.init QRect.null 0) (QImage.bitmap 1920 1080)).1.aspect_ratio_
        = ⟨16, 9⟩ :=
  ⟨by decide, by decide, by decide, by decide,
    (setImage_aspect_ratio_reduced (RatioLayoutedFrame.init QRect.null 0) 1920 1080
      (by decide) (by decide) (by decide) (by decide)).1.trans (by decide)⟩

/-- C3, counterexample: a 65536×1 image stores 0:1, which is not the reduced
form 65536:1 of its dimensions. -/
theorem setImage_aspect_ratio_wide_image :
    (setImage (RatioLayoutedFrame.init QRect.null 0) (QImage.bitmap 65536 1)).1.aspect_ratio_
        = ⟨0, 1⟩ ∧
      (setImage (RatioLayoutedFrame.init QRect.null 0) (QImage.bitmap 65536 1)).1.aspect_ratio_
        ≠ ⟨65536 / (Int.gcd 65536 1 : Int), 1 / (Int.gcd 65536 1 : Int)⟩ := by
  have h : (setImage (RatioLayoutedFrame.init QRect.null 0)
      (QImage.bitmap 65536 1)).1.aspect_ratio_ = ⟨0, 1⟩ := by
    rw [setImage_stores]
    decide
  exact ⟨h, by rw [h]; decide⟩

/-! ## Mouse release: what is emitted -/

/-- A release that passes the guard of line 157 on a non-null image clears
the drag and freeze flags and emits one `roi_selected`, carrying the scaled,
clamped, normalised selection. -/
theorem mouseReleaseEvent_bitmap (s : RatioLayoutedFrame) (event : QMouseEvent) (Iw Ih : Int)
    (hd : s.drag_flag_ = true) (he : s.roi_select_enabled_flag_ = true)
    (hb : event.button = LeftButton) (hi : s.qimage_ = QImage.bitmap Iw Ih) :
    mouseReleaseEvent s event =
      ({ s with drag_flag_ := false, image_freeze_ := false },
       [Signal.roi_selected
          (QRect.ofLTWH
            (roiScale s.contentsRect Iw.natAbs Ih.natAbs
              (roiClamp s.contentsRect (roiNormalize s.roi_rect_))).left
            (roiScale s.contentsRect Iw.natAbs Ih.natAbs
              (roiClamp s.contentsRect (roiNormalize s.roi_rect_))).top
            (roiScale s.contentsRect Iw.natAbs Ih.natAbs
              (roiClamp s.contentsRect (roiNormalize s.roi_rect_))).width
            (roiScale s.contentsRect Iw.natAbs Ih.natAbs
              (roiClamp s.contentsRect (roiNormalize s.roi_rect_))).height)]) := by
  simp [mouseReleaseEvent, hd, he, hb, hi, QImage.isNull, QImage.width, QImage.height]

theorem QRect.width_ofLTWH (l t w h : Int) : (QRect.ofLTWH l t w h).width = w := by
  simp only [QRect.ofLTWH, QRect.width]; omega

theorem QRect.height_ofLTWH (l t w h : Int) : (QRect.ofLTWH l t w h).height = h := by
  simp only [QRect.ofLTWH, QRect.height]; omega

theorem QRect.left_ofLTWH (l t w h : Int) : (QRect.ofLTWH l t w h).left = l := rfl

theorem QRect.top_ofLTWH (l t w h : Int) : (QRect.ofLTWH l t w h).top = t := rfl

/-- C1: a selection rectangle that lies in range is emitted scaled by
`Iw / W` horizontally and by `Ih / H` vertically, each quotient truncating. -/
theorem mouseReleaseEvent_scales_in_range (s : RatioLayoutedFrame) (event : QMouseEvent)
    (Iw Ih : Int)
    (hd : s.drag_flag_ = true) (he : s.roi_select_enabled_flag_ = true)
    (hb : event.button = LeftButton) (hi : s.qimage_ = QImage.bitmap Iw Ih)
    (hIw : 0 < Iw) (hIh : 0 < Ih)
    (_hW : 0 < s.contentsRect.width) (_hH : 0 < s.contentsRect.height)
    (hl : 0 ≤ s.roi_rect_.left) (ht : 0 ≤ s.roi_rect_.top)
    (hw0 : 0 ≤ s.roi_rect_.width) (hw1 : s.roi_rect_.width ≤ s.contentsRect.width)
    (hh0 : 0 ≤ s.roi_rect_.height) (hh1 : s.roi_rect_.height ≤ s.contentsRect.height)
    (_r1 : inIntRange (s.roi_rect_.left * Iw)) (_r2 : inIntRange (s.roi_rect_.top * Ih))
    (_r3 : inIntRange (s.roi_rect_.width * Iw)) (_r4 : inIntRange (s.roi_rect_.height * Ih)) :
    (mouseReleaseEvent s event).2 =
      [Signal.roi_selected
        (QRect.ofLTWH
          ((s.roi_rect_.left * Iw).tdiv s.contentsRect.width)
          ((s.roi_rect_.top * Ih).tdiv s.contentsRect.height)
          ((s.roi_rect_.width * Iw).tdiv s.contentsRect.width)
          ((s.roi_rect_.height * Ih).tdiv s.contentsRect.height))] := by
  rw [mouseReleaseEvent_bitmap s event Iw Ih hd he hb hi]
  have e1 : ((Iw.natAbs : Nat) : Int) = Iw := Int.natAbs_of_nonneg hIw.le
  have e2 : ((Ih.natAbs : Nat) : Int) = Ih := Int.natAbs_of_nonneg hIh.le
  simp only [roiScale, roiClamp, roiNormalize, e1, e2,
    if_neg (not_lt.mpr hw0), if_neg (not_lt.mpr hh0), if_neg (not_lt.mpr hl),
    if_neg (not_lt.mpr ht), gt_iff_lt, if_neg (not_lt.mpr hw1), if_neg (not_lt.mpr hh1)]

/-- C1, witness: the selection `(10, 20, 100, 50)` in a 320×240 content
rectangle over a 640×480 image is emitted as `(20, 40, 200, 100)`. -/
theorem mouseReleaseEvent_scales_in_range_witness :
    (mouseReleaseEvent draggingExample (leftRelease 110 70)).2 =
      [Signal.roi_selected (QRect.ofLTWH 20 40 200 100)] :=
  (mouseReleaseEvent_scales_in_range draggingExample (leftRelease 110 70) 640 480
    (by decide) (by decide) (by decide) (by decide) (by decide) (by decide)
    (by decide) (by decide) (by decide) (by decide) (by decide) (by decide)
    (by decide) (by decide) (by decide) (by decide) (by decide) (by decide)).trans (by decide)

/-! ## Press and move -/

/-- A press with only the left button held, on an armed widget, records the
anchor and starts the drag. -/
theorem mousePressEvent_left_armed (s : RatioLayoutedFrame) (e : QMouseEvent)
    (he : s.roi_select_enabled_flag_ = true) (hf : s.image_freeze_ = true)
    (hb : e.buttons = LeftButton) :
    (mousePressEvent s e).1 =
      { s with roi_rect_ := ⟨e.x, e.y, s.roi_rect_.x2, s.roi_rect_.y2⟩, drag_flag_ := true } := by
  simp only [mousePressEvent, he, hf, hb, QRect.setX, QRect.setY]
  split <;> simp

/-- A move during a drag puts the far corner one pixel before the pointer. -/
theorem mouseMoveEvent_drag (s : RatioLayoutedFrame) (e : QMouseEvent)
    (hd : s.drag_flag_ = true) (he : s.roi_select_enabled_flag_ = true) :
    (mouseMoveEvent s e).1 =
      { s with roi_rect_ := ⟨s.roi_rect_.x1, s.roi_rect_.y1, e.x - 1, e.y - 1⟩ } := by
  simp only [mouseMoveEvent, hd, he, QRect.setHeight, QRect.setWidth, QRect.x, QRect.y]
  simp only [Bool.and_self, if_true]
  congr 2
  · omega
  · omega

/-- Any number of further moves keeps the anchor and the flags. -/
theorem run_moves (moves : List QMouseEvent) (s : RatioLayoutedFrame) (last : QMouseEvent)
    (hd : s.drag_flag_ = true) (he : s.roi_select_enabled_flag_ = true) :
    run s (moves.map Call.mouseMoveEvent ++ [Call.mouseMoveEvent last]) =
      { s with roi_rect_ := ⟨s.roi_rect_.x1, s.roi_rect_.y1, last.x - 1, last.y - 1⟩ } := by
  induction moves generalizing s with
  | nil => simp [run, step, mouseMoveEvent_drag s last hd he]
  | cons m ms ih =>
    have h1 := mouseMoveEvent_drag s m hd he
    have := ih (mouseMoveEvent s m).1 (by rw [h1]; exact hd) (by rw [h1]; exact he)
    simp only [run, List.map_cons, List.cons_append, List.foldl_cons, step] at this ⊢
    rw [this, h1]

/-- The state at the end of a drag: a left press on an armed widget followed
by moves, the last of them at `last`. -/
theorem run_drag (s : RatioLayoutedFrame) (press : QMouseEvent) (moves : List QMouseEvent)
    (last : QMouseEvent)
    (he : s.roi_select_enabled_flag_ = true) (hf : s.image_freeze_ = true)
    (hb : press.buttons = LeftButton) :
    run s (Call.mousePressEvent press ::
        (moves.map Call.mouseMoveEvent ++ [Call.mouseMoveEvent last])) =
      { s with roi_rect_ := ⟨press.x, press.y, last.x - 1, last.y - 1⟩, drag_flag_ := true } := by
  have h1 := mousePressEvent_left_armed s press he hf hb
  have := run_moves moves (mousePressEvent s press).1 last (by rw [h1]) (by rw [h1]; exact he)
  simp only [run, List.foldl_cons, step] at this ⊢
  rw [this, h1]

/-- The normalisation of lines 179-195 on the rectangle a drag leaves behind:
the extents are the absolute differences, and on an axis dragged backwards
the corner is one pixel before the pointer. -/
theorem roiNormalize_drag (ax ay px py : Int) :
    roiNormalize ⟨ax, ay, px - 1, py - 1⟩ =
      ⟨if px < ax then px - 1 else ax, if py < ay then py - 1 else ay,
       |px - ax|, |py - ay|⟩ := by
  simp only [roiNormalize, QRect.width, QRect.height, QRect.left, QRect.right, QRect.top,
    QRect.bottom]
  have hx : px - 1 - ax + 1 = px - ax := by omega
  have hy : py - 1 - ay + 1 = py - ay := by omega
  rw [hx, hy]
  congr 1
  · split <;> split <;> first | rfl | omega
  · split <;> split <;> first | rfl | omega
  · split
    · rw [abs_of_neg (by omega)]
    · rw [abs_of_nonneg (by omega)]
  · split
    · rw [abs_of_neg (by omega)]
    · rw [abs_of_nonneg (by omega)]

/-! ## Fitting the aspect ratio -/

theorem roundHalfEven_close (t : ℚ) : |(roundHalfEven t : ℚ) - t| ≤ 1 / 2 := by
  have h1 : (⌊t⌋ : ℚ) ≤ t := Int.floor_le t
  have h2 : t < ⌊t⌋ + 1 := Int.lt_floor_add_one t
  unfold roundHalfEven
  split_ifs <;> rw [abs_le] <;> push_cast <;> constructor <;> linarith

theorem fl_close (x : ℚ) : |fl x - x| ≤ |x| / 9007199254740992 := by
  unfold fl
  split_ifs with h0
  · simp [h0]
  · have hx : 0 < |x| := abs_pos.mpr h0
    have hu : (0 : ℚ) < (2 : ℚ) ^ (Int.log 2 |x| - 52) := by positivity
    have hle : (2 : ℚ) ^ (Int.log 2 |x|) ≤ |x| := Int.zpow_log_le_self (by norm_num) hx
    have hsplit : (2 : ℚ) ^ (Int.log 2 |x|) =
        (2 : ℚ) ^ (Int.log 2 |x| - 52) * 4503599627370496 := by
      rw [zpow_sub₀ (by norm_num : (2 : ℚ) ≠ 0)]
      norm_num
    have hr := roundHalfEven_close (x / (2 : ℚ) ^ (Int.log 2 |x| - 52))
    generalize (2 : ℚ) ^ (Int.log 2 |x| - 52) = u at *
    generalize (roundHalfEven (x / u) : ℚ) = r at *
    have e : r * u - x = (r - x / u) * u := by field_simp
    rw [e, abs_mul, abs_of_pos hu]
    have : |r - x / u| * u ≤ 1 / 2 * u := mul_le_mul_of_nonneg_right hr hu.le
    linarith

theorem fl_bounds (x : ℚ) (hx : 0 ≤ x) :
    x - x / 9007199254740992 ≤ fl x ∧ fl x ≤ x + x / 9007199254740992 := by
  have h := fl_close x
  rw [abs_of_nonneg hx, abs_le] at h
  constructor <;> linarith [h.1, h.2]

theorem fl_pos (x : ℚ) (hx : 0 < x) : 0 < fl x := by
  have h := (fl_bounds x hx.le).1
  have : 0 < x - x / 9007199254740992 := by linarith
  linarith

theorem roundHalfEven_eq_of_close (t : ℚ) (m : Int) (h : |t - m| < 1 / 2) :
    roundHalfEven t = m := by
  rw [abs_lt] at h
  obtain ⟨h1, h2⟩ := h
  have f1 : (⌊t⌋ : ℚ) ≤ t := Int.floor_le t
  have f2 : t < ⌊t⌋ + 1 := Int.lt_floor_add_one t
  have c1 : m - 1 < ⌊t⌋ + 1 := by
    have : ((m - 1 : Int) : ℚ) < ((⌊t⌋ + 1 : Int) : ℚ) := by push_cast; linarith
    exact_mod_cast this
  have c2 : ⌊t⌋ < m + 1 := by
    have : ((⌊t⌋ : Int) : ℚ) < ((m + 1 : Int) : ℚ) := by push_cast; linarith
    exact_mod_cast this
  have hcase : ⌊t⌋ = m ∨ ⌊t⌋ = m - 1 := by omega
  unfold roundHalfEven
  rcases hcase with hc | hc
  · have e : (⌊t⌋ : ℚ) = m := by exact_mod_cast hc
    rw [if_pos (by linarith)]
    exact hc
  · have e : (⌊t⌋ : ℚ) = m - 1 := by rw [hc]; push_cast; ring
    rw [if_neg (by linarith), if_pos (by linarith), hc]
    omega

theorem fl_eq_of_close (x : ℚ) (k m : Int)
    (h1 : (2 : ℚ) ^ (k + 52) ≤ x) (h2 : x < (2 : ℚ) ^ (k + 52 + 1))
    (h3 : |x / (2 : ℚ) ^ k - m| < 1 / 2) : fl x = m * (2 : ℚ) ^ k := by
  have hpos : 0 < x := lt_of_lt_of_le (by positivity) h1
  have hx : x ≠ 0 := hpos.ne.symm
  have hlog : Int.log 2 |x| = k + 52 := by
    rw [abs_of_pos hpos]
    have a1 : k + 52 ≤ Int.log 2 x :=
      (Int.zpow_le_iff_le_log (by norm_num) hpos).mp (by exact_mod_cast h1)
    have a2 : Int.log 2 x < k + 52 + 1 :=
      (Int.lt_zpow_iff_log_lt (by norm_num) hpos).mp (by exact_mod_cast h2)
    omega
  unfold fl
  rw [if_neg hx, hlog]
  have e : k + 52 - 52 = k := by omega
  rw [e, roundHalfEven_eq_of_close _ m h3]


/-- The comparison of line 103 agrees with the comparison of the exact
ratios. -/
theorem fl_ratio_gt_iff (w h a b : Int) (hw1 : 1 ≤ w) (hw2 : w ≤ 2147483647)
    (hh1 : 1 ≤ h) (hh2 : h ≤ 2147483647) (ha1 : 1 ≤ a) (ha2 : a ≤ 65535)
    (hb1 : 1 ≤ b) (hb2 : b ≤ 65535) :
    fl ((w : ℚ) / h) > fl ((a : ℚ) / b) ↔ (w : ℚ) / h > (a : ℚ) / b := by
  have hwq : (1 : ℚ) ≤ w := by exact_mod_cast hw1
  have hhq : (1 : ℚ) ≤ h := by exact_mod_cast hh1
  have haq : (1 : ℚ) ≤ a := by exact_mod_cast ha1
  have hbq : (1 : ℚ) ≤ b := by exact_mod_cast hb1
  have hwq2 : (w : ℚ) ≤ 2147483647 := by exact_mod_cast hw2
  have hhq2 : (h : ℚ) ≤ 2147483647 := by exact_mod_cast hh2
  have haq2 : (a : ℚ) ≤ 65535 := by exact_mod_cast ha2
  have hbq2 : (b : ℚ) ≤ 65535 := by exact_mod_cast hb2
  have hL : (0 : ℚ) < (w : ℚ) / h := by positivity
  have hR : (0 : ℚ) < (a : ℚ) / b := by positivity
  obtain ⟨l1, l2⟩ := fl_bounds _ hL.le
  obtain ⟨r1, r2⟩ := fl_bounds _ hR.le
  have hwb : (w : ℚ) * b ≤ 2147483647 * 65535 := mul_le_mul hwq2 hbq2 (by linarith) (by norm_num)
  have hah : (a : ℚ) * h ≤ 65535 * 2147483647 := mul_le_mul haq2 hhq2 (by linarith) (by norm_num)
  have hwb0 : (0 : ℚ) < (w : ℚ) * b := by positivity
  have hah0 : (0 : ℚ) < (a : ℚ) * h := by positivity
  -- a strict exact comparison survives the two roundings
  have key : ∀ (p q r s : ℚ), 0 < q → 0 < s → 0 < p * s → 0 < r * q →
      p * s ≤ 2147483647 * 65535 → r * q ≤ 2147483647 * 65535 →
      r * q + 1 ≤ p * s →
      r / s + r / s / 9007199254740992 < p / q - p / q / 9007199254740992 := by
    intro p q r s hq hs hps hrq hps2 hrq2 hgap
    have e1 : r / s + r / s / 9007199254740992 = (r * q * (1 + 1 / 9007199254740992)) / (s * q) := by
      field_simp
      ring
    have e2 : p / q - p / q / 9007199254740992 = (p * s * (1 - 1 / 9007199254740992)) / (s * q) := by
      field_simp
      ring
    rw [e1, e2]
    apply div_lt_div_of_pos_right _ (by positivity)
    linarith
  constructor
  · intro hgt
    by_contra hng
    have hle : (w : ℚ) / h ≤ (a : ℚ) / b := not_lt.mp hng
    rcases eq_or_lt_of_le hle with heq | hlt
    · rw [heq] at hgt
      exact lt_irrefl _ hgt
    · have hint : w * b + 1 ≤ a * h := by
        have : (w : ℚ) * b < a * h := by
          have := (div_lt_div_iff₀ (by linarith : (0 : ℚ) < h) (by linarith : (0 : ℚ) < b)).mp hlt
          linarith
        have : w * b < a * h := by exact_mod_cast this
        omega
      have hq : (w : ℚ) * b + 1 ≤ a * h := by exact_mod_cast hint
      have := key a b w h (by linarith) (by linarith) hah0 hwb0
        (by linarith) (by linarith) hq
      linarith
  · intro hgt
    have hint : a * h + 1 ≤ w * b := by
      have : (a : ℚ) * h < w * b := by
        have := (div_lt_div_iff₀ (by linarith : (0 : ℚ) < b) (by linarith : (0 : ℚ) < h)).mp hgt
        linarith
      have : a * h < w * b := by exact_mod_cast this
      omega
    have hq : (a : ℚ) * h + 1 ≤ w * b := by exact_mod_cast hint
    have := key w h a b (by linarith) (by linarith) hwb0 hah0
      (by linarith) (by linarith) hq
    show fl ((a : ℚ) / b) < fl ((w : ℚ) / h)
    linarith

theorem toInt_of_nonneg (x : ℚ) (h : 0 ≤ x) : toInt x = ⌊x⌋ := by
  simp [toInt, h]

/-- The rounding of lines 113-114 on a value `p` close to `x`: the sum
`fl p + 0.5`, rounded, stays within `2 ^ (-19)` of `x + 1 / 2`. -/
theorem fl_add_half_close (x p : ℚ) (hx : x ≤ 2147483647) (hp0 : 0 < p)
    (hp : |p - x| ≤ 1 / 2097152) :
    |fl (fl p + 1 / 2) - (x + 1 / 2)| ≤ 1 / 524288 ∧ 0 ≤ fl (fl p + 1 / 2) := by
  rw [abs_le] at hp
  obtain ⟨p1, p2⟩ := fl_bounds p hp0.le
  have hfp : 0 < fl p := fl_pos p hp0
  have hq0 : 0 < fl p + 1 / 2 := by linarith
  obtain ⟨q1, q2⟩ := fl_bounds (fl p + 1 / 2) hq0.le
  refine ⟨?_, (fl_pos _ hq0).le⟩
  rw [abs_le]
  constructor <;> linarith [hp.1, hp.2]

/-- An integer part taken within `2 ^ (-19)` of `x + 1 / 2` is a nearest
integer of `x`, when `2 * c * x` is an integer for some `c ≤ 65535`. -/
theorem toInt_nearest (x y : ℚ) (c N : Int) (hc1 : 1 ≤ c) (hc2 : c ≤ 65535)
    (hN : x * (2 * c) = N) (hy0 : 0 ≤ y) (hy : |y - (x + 1 / 2)| ≤ 1 / 524288) :
    |(toInt y : ℚ) - x| ≤ 1 / 2 := by
  rw [toInt_of_nonneg y hy0]
  rw [abs_le] at hy
  have f1 : (⌊y⌋ : ℚ) ≤ y := Int.floor_le y
  have f2 : y < ⌊y⌋ + 1 := Int.lt_floor_add_one y
  have hcq1 : (1 : ℚ) ≤ c := by exact_mod_cast hc1
  have hcq2 : (c : ℚ) ≤ 65535 := by exact_mod_cast hc2
  -- upper: N ≤ (2 m + 1) c
  have u1 : (N : ℚ) < (2 * ⌊y⌋ + 1) * c + 1 := by
    rw [← hN]
    have : x < ⌊y⌋ + 1 / 2 + 1 / 524288 := by linarith [hy.1]
    nlinarith
  have u2 : N < (2 * ⌊y⌋ + 1) * c + 1 := by exact_mod_cast u1
  have u3 : (N : ℚ) ≤ (2 * ⌊y⌋ + 1) * c := by
    have : N ≤ (2 * ⌊y⌋ + 1) * c := by omega
    exact_mod_cast this
  -- lower: (2 m - 1) c ≤ N
  have l1 : ((2 * ⌊y⌋ - 1) * c : ℚ) - 1 < N := by
    rw [← hN]
    have : (⌊y⌋ : ℚ) - 1 / 2 - 1 / 524288 ≤ x := by linarith [hy.2]
    nlinarith
  have l2 : (2 * ⌊y⌋ - 1) * c - 1 < N := by exact_mod_cast l1
  have l3 : ((2 * ⌊y⌋ - 1) * c : ℚ) ≤ N := by
    have : (2 * ⌊y⌋ - 1) * c ≤ N := by omega
    exact_mod_cast this
  rw [← hN] at u3 l3
  have hc0 : (0 : ℚ) < 2 * c := by linarith
  rw [abs_le]
  constructor
  · have : x * (2 * c) ≤ ((⌊y⌋ : ℚ) + 1 / 2) * (2 * c) := by linarith
    have := le_of_mul_le_mul_right this hc0
    linarith
  · have : ((⌊y⌋ : ℚ) - 1 / 2) * (2 * c) ≤ x * (2 * c) := by linarith
    have := le_of_mul_le_mul_right this hc0
    linarith

/-- An `int` plus `0.5`, rounded and cast back, is the `int`. -/
theorem toInt_fl_add_half (n : Int) (h1 : 1 ≤ n) (h2 : n ≤ 2147483647) :
    toInt (fl ((n : ℚ) + 1 / 2)) = n := by
  have hn1 : (1 : ℚ) ≤ n := by exact_mod_cast h1
  have hn2 : (n : ℚ) ≤ 2147483647 := by exact_mod_cast h2
  have hq0 : (0 : ℚ) < (n : ℚ) + 1 / 2 := by linarith
  obtain ⟨q1, q2⟩ := fl_bounds _ hq0.le
  rw [toInt_of_nonneg _ (fl_pos _ hq0).le, Int.floor_eq_iff]
  constructor <;> linarith

/-- The branch of lines 105-106 ("too large width"), rounded as in line 113:
the result is a nearest integer of `h * a / b` and does not exceed `w`. -/
theorem fit_width_nearest (w h a b : Int) (hw2 : w ≤ 2147483647)
    (hh1 : 1 ≤ h) (ha1 : 1 ≤ a) (hb1 : 1 ≤ b) (hb2 : b ≤ 65535)
    (hgt : (w : ℚ) / h > (a : ℚ) / b) :
    |(toInt (fl (fl ((h : ℚ) * fl ((a : ℚ) / b)) + 1 / 2)) : ℚ) - (h : ℚ) * a / b| ≤ 1 / 2 ∧
      toInt (fl (fl ((h : ℚ) * fl ((a : ℚ) / b)) + 1 / 2)) ≤ w := by
  have hhq : (1 : ℚ) ≤ h := by exact_mod_cast hh1
  have haq : (1 : ℚ) ≤ a := by exact_mod_cast ha1
  have hbq : (1 : ℚ) ≤ b := by exact_mod_cast hb1
  have hwq2 : (w : ℚ) ≤ 2147483647 := by exact_mod_cast hw2
  have hr0 : (0 : ℚ) < (a : ℚ) / b := by positivity
  have hx0 : (0 : ℚ) < (h : ℚ) * ((a : ℚ) / b) := by positivity
  have hxw : (h : ℚ) * ((a : ℚ) / b) < w := by
    have h3 : (a : ℚ) / b * h < w := (lt_div_iff₀ (by linarith)).mp hgt
    rw [mul_comm]
    exact h3
  obtain ⟨r1, r2⟩ := fl_bounds _ hr0.le
  have hrt : 0 < fl ((a : ℚ) / b) := fl_pos _ hr0
  have hp0 : (0 : ℚ) < (h : ℚ) * fl ((a : ℚ) / b) := by positivity
  have hp : |(h : ℚ) * fl ((a : ℚ) / b) - (h : ℚ) * ((a : ℚ) / b)| ≤ 1 / 2097152 := by
    rw [abs_le]
    constructor <;> nlinarith
  obtain ⟨c1, c2⟩ := fl_add_half_close _ _ (by linarith) hp0 hp
  have hN : (h : ℚ) * ((a : ℚ) / b) * (2 * b) = ((2 * h * a : Int) : ℚ) := by
    push_cast
    field_simp
    ring
  have hn := toInt_nearest _ _ b (2 * h * a) hb1 hb2 hN c2 c1
  have e : (h : ℚ) * a / b = (h : ℚ) * ((a : ℚ) / b) := by ring
  rw [e]
  refine ⟨hn, ?_⟩
  rw [abs_le] at hn
  have : (toInt (fl (fl ((h : ℚ) * fl ((a : ℚ) / b)) + 1 / 2)) : ℚ) < (w : ℚ) + 1 := by
    linarith [hn.2]
  have : toInt (fl (fl ((h : ℚ) * fl ((a : ℚ) / b)) + 1 / 2)) < w + 1 := by exact_mod_cast this
  omega

/-- The branch of lines 110-111 ("too large height"), rounded as in line 114:
the result is a nearest integer of `w * b / a` and does not exceed `h`. -/
theorem fit_height_nearest (w h a b : Int) (hw1 : 1 ≤ w)
    (hh1 : 1 ≤ h) (hh2 : h ≤ 2147483647) (ha1 : 1 ≤ a) (ha2 : a ≤ 65535) (hb1 : 1 ≤ b)
    (hle : ¬ (w : ℚ) / h > (a : ℚ) / b) :
    |(toInt (fl (fl ((w : ℚ) / fl ((a : ℚ) / b)) + 1 / 2)) : ℚ) - (w : ℚ) * b / a| ≤ 1 / 2 ∧
      toInt (fl (fl ((w : ℚ) / fl ((a : ℚ) / b)) + 1 / 2)) ≤ h := by
  have hwq : (1 : ℚ) ≤ w := by exact_mod_cast hw1
  have hhq : (1 : ℚ) ≤ h := by exact_mod_cast hh1
  have haq : (1 : ℚ) ≤ a := by exact_mod_cast ha1
  have hbq : (1 : ℚ) ≤ b := by exact_mod_cast hb1
  have hhq2 : (h : ℚ) ≤ 2147483647 := by exact_mod_cast hh2
  have hr0 : (0 : ℚ) < (a : ℚ) / b := by positivity
  have hx0 : (0 : ℚ) < (w : ℚ) * b / a := by positivity
  have hxr : (w : ℚ) * b / a * ((a : ℚ) / b) = w := by
    field_simp
  have hxh : (w : ℚ) * b / a ≤ h := by
    have h3 : (w : ℚ) ≤ (a : ℚ) / b * h := (div_le_iff₀ (by linarith)).mp (not_lt.mp hle)
    rw [div_le_iff₀ (by linarith)]
    have h4 : (a : ℚ) / b * h * b = h * a := by field_simp; ring
    nlinarith
  obtain ⟨r1, r2⟩ := fl_bounds _ hr0.le
  have hrt : 0 < fl ((a : ℚ) / b) := fl_pos _ hr0
  have hp0 : (0 : ℚ) < (w : ℚ) / fl ((a : ℚ) / b) := by positivity
  have hpr : (w : ℚ) / fl ((a : ℚ) / b) * fl ((a : ℚ) / b) = w := by
    field_simp
  have hup : (w : ℚ) / fl ((a : ℚ) / b) ≤
      (w : ℚ) * b / a * (1 + 2 / 9007199254740992) := by
    apply le_of_mul_le_mul_right _ hrt
    rw [hpr]
    have : (w : ℚ) ≤ (w : ℚ) * b / a * (1 + 2 / 9007199254740992) *
        ((a : ℚ) / b - (a : ℚ) / b / 9007199254740992) := by
      have e : (w : ℚ) * b / a * (1 + 2 / 9007199254740992) *
          ((a : ℚ) / b - (a : ℚ) / b / 9007199254740992) =
          ((w : ℚ) * b / a * ((a : ℚ) / b)) *
            ((1 + 2 / 9007199254740992) * (1 - 1 / 9007199254740992)) := by ring
      rw [e, hxr]
      nlinarith
    have h5 : (0 : ℚ) ≤ (w : ℚ) * b / a * (1 + 2 / 9007199254740992) := by positivity
    nlinarith [mul_le_mul_of_nonneg_left r1 h5]
  have hlo : (w : ℚ) * b / a * (1 - 1 / 9007199254740992) ≤ (w : ℚ) / fl ((a : ℚ) / b) := by
    apply le_of_mul_le_mul_right _ hrt
    rw [hpr]
    have : (w : ℚ) * b / a * (1 - 1 / 9007199254740992) *
        ((a : ℚ) / b + (a : ℚ) / b / 9007199254740992) ≤ w := by
      have e : (w : ℚ) * b / a * (1 - 1 / 9007199254740992) *
          ((a : ℚ) / b + (a : ℚ) / b / 9007199254740992) =
          ((w : ℚ) * b / a * ((a : ℚ) / b)) *
            ((1 - 1 / 9007199254740992) * (1 + 1 / 9007199254740992)) := by ring
      rw [e, hxr]
      nlinarith
    have h5 : (0 : ℚ) ≤ (w : ℚ) * b / a * (1 - 1 / 9007199254740992) := by positivity
    nlinarith [mul_le_mul_of_nonneg_left r2 h5]
  have hp : |(w : ℚ) / fl ((a : ℚ) / b) - (w : ℚ) * b / a| ≤ 1 / 2097152 := by
    rw [abs_le]
    constructor <;> linarith
  obtain ⟨c1, c2⟩ := fl_add_half_close _ _ (by linarith) hp0 hp
  have hN : (w : ℚ) * b / a * (2 * a) = ((2 * w * b : Int) : ℚ) := by
    push_cast
    field_simp
    ring
  have hn := toInt_nearest _ _ a (2 * w * b) ha1 ha2 hN c2 c1
  refine ⟨hn, ?_⟩
  rw [abs_le] at hn
  have : (toInt (fl (fl ((w : ℚ) / fl ((a : ℚ) / b)) + 1 / 2)) : ℚ) < (h : ℚ) + 1 := by
    linarith [hn.2]
  have : toInt (fl (fl ((w : ℚ) / fl ((a : ℚ) / b)) + 1 / 2)) < h + 1 := by exact_mod_cast this
  omega

theorem QRect.width_setHeight_setWidth (r : QRect) (w h : Int) :
    ((r.setWidth w).setHeight h).width = w := by
  simp only [QRect.setWidth, QRect.setHeight, QRect.width]; omega

theorem QRect.height_setHeight_setWidth (r : QRect) (w h : Int) :
    ((r.setWidth w).setHeight h).height = h := by
  simp only [QRect.setWidth, QRect.setHeight, QRect.height]; omega

/-- The content size and the `resize` arguments of `resizeToFitAspectRatio`
in terms of the available space `w × h` and the stored ratio `a : b`. -/
theorem resizeToFitAspectRatio_size (s : RatioLayoutedFrame) (w h a b : Int)
    (hav : (∃ l, s.outer_layout_ = some l ∧ l.width = w ∧ l.height = h) ∨
      (s.outer_layout_ = none ∧ s.contentsRect.width = w ∧ s.contentsRect.height = h))
    (hratio : s.aspect_ratio_ = ⟨a, b⟩) :
    (resizeToFitAspectRatio s).1.width =
        toInt (fl ((if fl ((w : ℚ) / h) > fl ((a : ℚ) / b) then
          (fl ((h : ℚ) * fl ((a : ℚ) / b)), (h : ℚ))
          else ((w : ℚ), fl ((w : ℚ) / fl ((a : ℚ) / b)))).1 + 1 / 2)) ∧
      (resizeToFitAspectRatio s).1.height =
        toInt (fl ((if fl ((w : ℚ) / h) > fl ((a : ℚ) / b) then
          (fl ((h : ℚ) * fl ((a : ℚ) / b)), (h : ℚ))
          else ((w : ℚ), fl ((w : ℚ) / fl ((a : ℚ) / b)))).2 + 1 / 2)) ∧
      (resizeToFitAspectRatio s).2 =
        ((resizeToFitAspectRatio s).1.width + 2 * s.lineWidth,
         (resizeToFitAspectRatio s).1.height + 2 * s.lineWidth) := by
  rcases hav with ⟨l, hl, hlw, hlh⟩ | ⟨hl, hlw, hlh⟩
  · simp only [resizeToFitAspectRatio, hl, hlw, hlh, hratio, QSize.width, QSize.height,
      QRect.width_setHeight_setWidth, QRect.height_setHeight_setWidth, and_self]
  · simp only [resizeToFitAspectRatio, hl, hlw, hlh, hratio, QSize.width, QSize.height,
      QRect.width_setHeight_setWidth, QRect.height_setHeight_setWidth, and_self]

/-- C4 (as amended): in `double` arithmetic, for available space `w × h` (two
positive `int`s) and stored ratio `a : b` (positive, at most 65535), the
content size computed by `resizeToFitAspectRatio` fits in the available
space; when `w / h > a / b` its height is `h` and its width is a nearest
integer of `h * a / b`, otherwise its width is `w` and its height is a
nearest integer of `w * b / a`; the widget is resized to that size plus
twice the border. -/
theorem resizeToFitAspectRatio_fits_nearest (s : RatioLayoutedFrame) (w h a b : Int)
    (hw1 : 1 ≤ w) (hw2 : w ≤ 2147483647) (hh1 : 1 ≤ h) (hh2 : h ≤ 2147483647)
    (ha1 : 1 ≤ a) (ha2 : a ≤ 65535) (hb1 : 1 ≤ b) (hb2 : b ≤ 65535)
    (hav : (∃ l, s.outer_layout_ = some l ∧ l.width = w ∧ l.height = h) ∨
      (s.outer_layout_ = none ∧ s.contentsRect.width = w ∧ s.contentsRect.height = h))
    (hratio : s.aspect_ratio_ = ⟨a, b⟩) :
    (resizeToFitAspectRatio s).1.width ≤ w ∧
      (resizeToFitAspectRatio s).1.height ≤ h ∧
      ((w : ℚ) / h > (a : ℚ) / b →
        (resizeToFitAspectRatio s).1.height = h ∧
        |((resizeToFitAspectRatio s).1.width : ℚ) - (h : ℚ) * a / b| ≤ 1 / 2) ∧
      (¬ (w : ℚ) / h > (a : ℚ) / b →
        (resizeToFitAspectRatio s).1.width = w ∧
        |((resizeToFitAspectRatio s).1.height : ℚ) - (w : ℚ) * b / a| ≤ 1 / 2) ∧
      (resizeToFitAspectRatio s).2 =
        ((resizeToFitAspectRatio s).1.width + 2 * s.lineWidth,
         (resizeToFitAspectRatio s).1.height + 2 * s.lineWidth) := by
  obtain ⟨ew, eh, er⟩ := resizeToFitAspectRatio_size s w h a b hav hratio
  have hcmp := fl_ratio_gt_iff w h a b hw1 hw2 hh1 hh2 ha1 ha2 hb1 hb2
  have hW := toInt_fl_add_half w hw1 hw2
  have hH := toInt_fl_add_half h hh1 hh2
  by_cases hc : (w : ℚ) / h > (a : ℚ) / b
  · obtain ⟨n1, n2⟩ := fit_width_nearest w h a b hw2 hh1 ha1 hb1 hb2 hc
    rw [if_pos (hcmp.mpr hc)] at ew eh
    simp only at ew eh
    rw [hH] at eh
    rw [← ew] at n1 n2
    exact ⟨n2, eh.le, fun _ => ⟨eh, n1⟩, fun hn => absurd hc hn, er⟩
  · obtain ⟨n1, n2⟩ := fit_height_nearest w h a b hw1 hh1 hh2 ha1 ha2 hb1 hc
    rw [if_neg (fun hgt => hc (hcmp.mp hgt))] at ew eh
    simp only at ew eh
    rw [hW] at ew
    rw [← eh] at n1 n2
    exact ⟨ew.le, n2, fun hn => absurd hn hc, fun _ => ⟨ew, n1⟩, er⟩

/-- C4, witness: for available space 800×450 and the ratio 4:3 the content
size is 600×450, and the widget with border 1 is resized to 602×452. -/
theorem resizeToFitAspectRatio_fits_nearest_witness :
    (resizeToFitAspectRatio fitExample).1.width = 600 ∧
      (resizeToFitAspectRatio fitExample).1.height = 450 ∧
      (resizeToFitAspectRatio fitExample).2 = (602, 452) := by
  have h := resizeToFitAspectRatio_fits_nearest fitExample 800 450 4 3
    (by decide) (by decide) (by decide) (by decide) (by decide) (by decide) (by decide)
    (by decide) (Or.inr ⟨by decide, by decide, by decide⟩) (by decide)
  obtain ⟨-, -, h3, -, h5⟩ := h
  obtain ⟨e1, e2⟩ := h3 (by norm_num)
  have e3 : (resizeToFitAspectRatio fitExample).1.width = 600 := by
    rw [abs_le] at e2
    have a1 : (((resizeToFitAspectRatio fitExample).1.width : Int) : ℚ) < ((601 : Int) : ℚ) := by
      push_cast; norm_num at e2 ⊢; linarith [e2.2]
    have a2 : ((599 : Int) : ℚ) < (((resizeToFitAspectRatio fitExample).1.width : Int) : ℚ) := by
      push_cast; norm_num at e2 ⊢; linarith [e2.1]
    have b1 : (resizeToFitAspectRatio fitExample).1.width < 601 := by exact_mod_cast a1
    have b2 : 599 < (resizeToFitAspectRatio fitExample).1.width := by exact_mod_cast a2
    omega
  refine ⟨e3, e1, ?_⟩
  rw [h5, e3, e1]
  decide

/-- C4, counterexample: for available space 35×12 and the ratio 14:3 the
exact height `35 * 3 / 14` is 7.5, which rounds half-up to 8; the `double`
quotient `35 / (14.0 / 3.0)` is one unit in the last place below 7.5 and the
computed height is 7. -/
theorem resizeToFitAspectRatio_tie_rounds_down :
    ¬ ((35 : ℚ) / 12 > (14 : ℚ) / 3) ∧
      round ((35 : ℚ) * 3 / 14) = 8 ∧
      (resizeToFitAspectRatio tieExample).1.width = 35 ∧
      (resizeToFitAspectRatio tieExample).1.height = 7 := by
  obtain ⟨ew, eh, -⟩ := resizeToFitAspectRatio_size tieExample 35 12 14 3
    (Or.inr ⟨by decide, by decide, by decide⟩) (by decide)
  have hcmp := fl_ratio_gt_iff 35 12 14 3 (by decide) (by decide) (by decide) (by decide)
    (by decide) (by decide) (by decide) (by decide)
  have hc : ¬ (((35 : Int) : ℚ) / ((12 : Int) : ℚ) > ((14 : Int) : ℚ) / ((3 : Int) : ℚ)) := by
    norm_num
  rw [if_neg (fun hgt => hc (hcmp.mp hgt))] at ew eh
  simp only at ew eh
  have f1 : fl (((14 : Int) : ℚ) / ((3 : Int) : ℚ)) = 5254199565265579 / 1125899906842624 := by
    rw [fl_eq_of_close _ (-50) 5254199565265579 (by norm_num) (by norm_num)
      (by rw [abs_lt]; constructor <;> norm_num)]
    norm_num
  have f2 : fl (((35 : Int) : ℚ) / (5254199565265579 / 1125899906842624)) =
      8444249301319679 / 1125899906842624 := by
    rw [fl_eq_of_close _ (-50) 8444249301319679 (by norm_num) (by norm_num)
      (by rw [abs_lt]; constructor <;> norm_num)]
    norm_num
  have f3 : fl (8444249301319679 / 1125899906842624 + 1 / 2) =
      9007199254740991 / 1125899906842624 := by
    rw [fl_eq_of_close _ (-50) 9007199254740991 (by norm_num) (by norm_num)
      (by rw [abs_lt]; constructor <;> norm_num)]
    norm_num
  have f4 : toInt (9007199254740991 / 1125899906842624) = 7 := by
    rw [toInt_of_nonneg _ (by norm_num), Int.floor_eq_iff]
    constructor <;> norm_num
  rw [f1, f2, f3, f4] at eh
  rw [toInt_fl_add_half 35 (by decide) (by decide)] at ew
  refine ⟨by norm_num, by norm_num [round_eq], ew, eh⟩

/-- The same effect on the other branch: for available space 108×27 and the
ratio 13:6 the exact width `27 * 13 / 6` is 58.5; the `double` product is
one unit in the last place below it and the computed width is 58. -/
theorem resizeToFitAspectRatio_tie_width :
    (108 : ℚ) / 27 > (13 : ℚ) / 6 ∧
      round ((27 : ℚ) * 13 / 6) = 59 ∧
      (resizeToFitAspectRatio tieWidthExample).1.width = 58 ∧
      (resizeToFitAspectRatio tieWidthExample).1.height = 27 := by
  obtain ⟨ew, eh, -⟩ := resizeToFitAspectRatio_size tieWidthExample 108 27 13 6
    (Or.inr ⟨by decide, by decide, by decide⟩) (by decide)
  have hcmp := fl_ratio_gt_iff 108 27 13 6 (by decide) (by decide) (by decide) (by decide)
    (by decide) (by decide) (by decide) (by decide)
  have hc : ((108 : Int) : ℚ) / ((27 : Int) : ℚ) > ((13 : Int) : ℚ) / ((6 : Int) : ℚ) := by
    norm_num
  rw [if_pos (hcmp.mpr hc)] at ew eh
  simp only at ew eh
  have f1 : fl (((13 : Int) : ℚ) / ((6 : Int) : ℚ)) = 4878899596318037 / 2251799813685248 := by
    rw [fl_eq_of_close _ (-51) 4878899596318037 (by norm_num) (by norm_num)
      (by rw [abs_lt]; constructor <;> norm_num)]
    norm_num
  have f2 : fl (((27 : Int) : ℚ) * (4878899596318037 / 2251799813685248)) =
      8233143068786687 / 140737488355328 := by
    rw [fl_eq_of_close _ (-47) 8233143068786687 (by norm_num) (by norm_num)
      (by rw [abs_lt]; constructor <;> norm_num)]
    norm_num
  have f3 : fl (8233143068786687 / 140737488355328 + 1 / 2) =
      8303511812964351 / 140737488355328 := by
    rw [fl_eq_of_close _ (-47) 8303511812964351 (by norm_num) (by norm_num)
      (by rw [abs_lt]; constructor <;> norm_num)]
    norm_num
  have f4 : toInt (8303511812964351 / 140737488355328) = 58 := by
    rw [toInt_of_nonneg _ (by norm_num), Int.floor_eq_iff]
    constructor <;> norm_num
  rw [f1, f2, f3, f4] at ew
  rw [toInt_fl_add_half 27 (by decide) (by decide)] at eh
  refine ⟨by norm_num, by norm_num [round_eq], ew, eh⟩

/-! ## Mouse release: the claims on the emitted rectangle -/

/-- C2, the failing input: in a widget with a frame border of 5 around a
100×100 content rectangle showing a 100×100 image, a drag from the anchor
`(109, 50)` back to the pointer `(-5, 60)` emits `(0, 50, 108, 10)`, whose
width 108 exceeds the image width 100. -/
theorem mouseReleaseEvent_width_exceeds_image :
    (mouseReleaseEvent
        (run borderExample
          [Call.mousePressEvent (leftPress 109 50), Call.mouseMoveEvent (leftMove (-5) 60)])
        (leftRelease (-5) 60)).2 =
      [Signal.roi_selected (QRect.ofLTWH 0 50 108 10)] ∧
    borderExample.qimage_.width < (QRect.ofLTWH 0 50 108 10).width := by
  decide

/-- Whatever the selection rectangle, the clamped and scaled left and top
are non-negative. -/
theorem roiScale_roiClamp_left_top_nonneg (c : QRect) (Iw Ih : Nat) (r : Roi)
    (hW : 0 < c.width) (hH : 0 < c.height) :
    0 ≤ (roiScale c Iw Ih (roiClamp c r)).left ∧ 0 ≤ (roiScale c Iw Ih (roiClamp c r)).top := by
  simp only [roiScale, roiClamp]
  constructor
  · apply Int.tdiv_nonneg _ hW.le
    apply mul_nonneg _ (Int.ofNat_nonneg _)
    split
    · exact le_refl _
    · split <;> omega
  · apply Int.tdiv_nonneg _ hH.le
    apply mul_nonneg _ (Int.ofNat_nonneg _)
    split
    · exact le_refl _
    · split <;> omega

/-- C5: after a drag on an armed widget whose anchor is non-negative and
whose pointer ends right of and below the anchor (or on it), the release
emits one rectangle, of non-negative width and height. -/
theorem drag_release_extent_nonneg (s : RatioLayoutedFrame) (press : QMouseEvent)
    (moves : List QMouseEvent) (last release : QMouseEvent) (Iw Ih : Int)
    (he : s.roi_select_enabled_flag_ = true) (hf : s.image_freeze_ = true)
    (hi : s.qimage_ = QImage.bitmap Iw Ih) (_hIw : 0 < Iw) (_hIh : 0 < Ih)
    (hW : 0 < s.contentsRect.width) (hH : 0 < s.contentsRect.height)
    (hp : press.buttons = LeftButton) (hax : 0 ≤ press.x) (hay : 0 ≤ press.y)
    (hx : press.x ≤ last.x) (hy : press.y ≤ last.y)
    (hr : release.button = LeftButton) :
    ∃ r : QRect,
      (mouseReleaseEvent
          (run s (Call.mousePressEvent press ::
            (moves.map Call.mouseMoveEvent ++ [Call.mouseMoveEvent last])))
          release).2 = [Signal.roi_selected r] ∧
        0 ≤ r.width ∧ 0 ≤ r.height ∧
        r.left ≤ r.left + r.width ∧ r.top ≤ r.top + r.height := by
  rw [run_drag s press moves last he hf hp]
  rw [mouseReleaseEvent_bitmap
    { s with roi_rect_ := ⟨press.x, press.y, last.x - 1, last.y - 1⟩, drag_flag_ := true }
    release Iw Ih rfl he hr hi]
  refine ⟨_, rfl, ?_⟩
  rw [QRect.width_ofLTWH, QRect.height_ofLTWH]
  have hw : 0 ≤ (roiScale s.contentsRect Iw.natAbs Ih.natAbs
      (roiClamp s.contentsRect (roiNormalize ⟨press.x, press.y, last.x - 1, last.y - 1⟩))).width := by
    rw [roiNormalize_drag]
    simp only [roiScale, roiClamp, if_neg (not_lt.mpr hx), if_neg (not_lt.mpr hax)]
    apply Int.tdiv_nonneg _ hW.le
    apply mul_nonneg _ (Int.ofNat_nonneg _)
    split
    · exact hW.le
    · exact abs_nonneg _
  have hh : 0 ≤ (roiScale s.contentsRect Iw.natAbs Ih.natAbs
      (roiClamp s.contentsRect (roiNormalize ⟨press.x, press.y, last.x - 1, last.y - 1⟩))).height := by
    rw [roiNormalize_drag]
    simp only [roiScale, roiClamp, if_neg (not_lt.mpr hy), if_neg (not_lt.mpr hay)]
    apply Int.tdiv_nonneg _ hH.le
    apply mul_nonneg _ (Int.ofNat_nonneg _)
    split
    · exact hH.le
    · exact abs_nonneg _
  exact ⟨hw, hh, le_add_of_nonneg_right hw, le_add_of_nonneg_right hh⟩

/-- C5, witness: a drag on the armed example from `(10, 10)` through
`(30, 5)` to `(60, 40)`. -/
theorem drag_release_extent_nonneg_witness :
    ∃ r : QRect,
      (mouseReleaseEvent
          (run armedExample (Call.mousePressEvent (leftPress 10 10) ::
            ([leftMove 30 5].map Call.mouseMoveEvent ++ [Call.mouseMoveEvent (leftMove 60 40)])))
          (leftRelease 60 40)).2 = [Signal.roi_selected r] ∧
        0 ≤ r.width ∧ 0 ≤ r.height ∧
        r.left ≤ r.left + r.width ∧ r.top ≤ r.top + r.height :=
  drag_release_extent_nonneg armedExample (leftPress 10 10) [leftMove 30 5] (leftMove 60 40)
    (leftRelease 60 40) 100 100 (by decide) (by decide) (by decide) (by decide) (by decide)
    (by decide) (by decide) (by decide) (by decide) (by decide) (by decide) (by decide)
    (by decide)

/-- C6: a release while the stored image is null emits nothing, whatever the
state and the event. -/
theorem mouseReleaseEvent_null_image (s : RatioLayoutedFrame) (event : QMouseEvent)
    (h : s.qimage_.isNull = true) : (mouseReleaseEvent s event).2 = [] := by
  simp only [mouseReleaseEvent, h]
  split <;> simp

/-- C6, witness: a release in mid-drag on a widget without an image. -/
theorem mouseReleaseEvent_null_image_witness :
    (run (RatioLayoutedFrame.init (QRect.ofLTWH 0 0 100 100) 0) startDrag).qimage_.isNull = true ∧
      (run (RatioLayoutedFrame.init (QRect.ofLTWH 0 0 100 100) 0) startDrag).drag_flag_ = true ∧
      (mouseReleaseEvent (run (RatioLayoutedFrame.init (QRect.ofLTWH 0 0 100 100) 0) startDrag)
        (leftRelease 3 4)).2 = [] :=
  ⟨by decide, by decide,
    mouseReleaseEvent_null_image
      (run (RatioLayoutedFrame.init (QRect.ofLTWH 0 0 100 100) 0) startDrag)
      (leftRelease 3 4) (by decide)⟩

/-- C7 (as amended): with a drag in progress and selection enabled, and a
content rectangle of positive width and height whenever the image is
non-null (lines 218-221 divide by them), a release of the left button clears
the drag and freeze flags and, when the image is non-null, emits exactly one
`roi_selected`. -/
theorem mouseReleaseEvent_ends_drag (s : RatioLayoutedFrame) (event : QMouseEvent)
    (hd : s.drag_flag_ = true) (he : s.roi_select_enabled_flag_ = true)
    (hb : event.button = LeftButton)
    (_hdiv : s.qimage_.isNull = false →
      0 < s.contentsRect.width ∧ 0 < s.contentsRect.height) :
    (mouseReleaseEvent s event).1.drag_flag_ = false ∧
      (mouseReleaseEvent s event).1.image_freeze_ = false ∧
      (s.qimage_.isNull = false →
        ∃ r, (mouseReleaseEvent s event).2 = [Signal.roi_selected r]) := by
  cases hq : s.qimage_.isNull <;> simp [mouseReleaseEvent, hd, he, hb, hq]

/-- C7, witness: the release that ends the drag of `draggingExample`. -/
theorem mouseReleaseEvent_ends_drag_witness :
    (mouseReleaseEvent draggingExample (leftRelease 110 70)).1.drag_flag_ = false ∧
      (mouseReleaseEvent draggingExample (leftRelease 110 70)).1.image_freeze_ = false ∧
      (draggingExample.qimage_.isNull = false →
        ∃ r, (mouseReleaseEvent draggingExample (leftRelease 110 70)).2
          = [Signal.roi_selected r]) :=
  mouseReleaseEvent_ends_drag draggingExample (leftRelease 110 70)
    (by decide) (by decide) (by decide) (fun _ => ⟨by decide, by decide⟩)

/-- C7, counterexample: when the host switches selection off during a drag,
the drag flag is set, yet a release of the left button leaves the drag and
freeze flags set. -/
theorem mouseReleaseEvent_selection_disabled :
    (run (RatioLayoutedFrame.init (QRect.ofLTWH 0 0 100 100) 0) disabledMidDrag).drag_flag_
        = true ∧
      (leftRelease 0 0).button = LeftButton ∧
      (mouseReleaseEvent
        (run (RatioLayoutedFrame.init (QRect.ofLTWH 0 0 100 100) 0) disabledMidDrag)
        (leftRelease 0 0)).1.drag_flag_ = true ∧
      (mouseReleaseEvent
        (run (RatioLayoutedFrame.init (QRect.ofLTWH 0 0 100 100) 0) disabledMidDrag)
        (leftRelease 0 0)).1.image_freeze_ = true := by
  decide

/-- C8, the failing input: after a drag from the anchor `(10, 10)` back to
the pointer `(5, 5)` the normalised rectangle has left = top = 4, one less
than the minimum corner `(5, 5)`; its width and height are the absolute
differences, 5. -/
theorem roiNormalize_backward_drag :
    roiNormalize
        (run armedExample
          [Call.mousePressEvent (leftPress 10 10), Call.mouseMoveEvent (leftMove 5 5)]).roi_rect_
      = ⟨4, 4, 5, 5⟩ ∧
    min (10 : Int) 5 = 5 ∧ |(5 : Int) - 10| = 5 := by
  decide

/-- C9, the failing input: on the armed example a left press at `(10, 10)`
released without a move emits `(0, 0, 9, 9)`; after an earlier drag, which
changes nothing but the stored selection rectangle, the same press and
release emit `(10, 10, 40, 40)`. -/
theorem press_release_depends_on_stale_rect :
    run armedExample earlierDrag = { armedExample with roi_rect_ := ⟨0, 0, 49, 49⟩ } ∧
    (mouseReleaseEvent (mousePressEvent armedExample (leftPress 10 10)).1
        (leftRelease 10 10)).2 = [Signal.roi_selected (QRect.ofLTWH 0 0 9 9)] ∧
    (mouseReleaseEvent (mousePressEvent (run armedExample earlierDrag) (leftPress 10 10)).1
        (leftRelease 10 10)).2 = [Signal.roi_selected (QRect.ofLTWH 10 10 40 40)] := by
  decide

/-! ## The flag invariant -/

/-- One call keeps "drag implies frozen". -/
theorem step_drag_imp_freeze (s : RatioLayoutedFrame) (c : Call)
    (h : s.drag_flag_ = true → s.image_freeze_ = true) :
    (step s c).drag_flag_ = true → (step s c).image_freeze_ = true := by
  cases c with
  | mousePressEvent e =>
    simp only [step, mousePressEvent]
    repeat' split
    all_goals simp_all
  | mouseMoveEvent e =>
    simp only [step, mouseMoveEvent]
    split <;> simp_all
  | mouseReleaseEvent e =>
    simp only [step, mouseReleaseEvent]
    repeat' split
    all_goals simp_all
  | roi_select_enabled c => simpa [step, roi_select_enabled] using h
  | setImage i =>
    simp only [step, setImage, setAspectRatio]
    split <;> simpa using h
  | onSmoothImageChanged c => simpa [step, onSmoothImageChanged] using h

/-- A run keeps "drag implies frozen". -/
theorem run_drag_imp_freeze (calls : List Call) (s : RatioLayoutedFrame)
    (h : s.drag_flag_ = true → s.image_freeze_ = true) :
    (run s calls).drag_flag_ = true → (run s calls).image_freeze_ = true := by
  induction calls generalizing s with
  | nil => exact h
  | cons c cs ih => exact ih (step s c) (step_drag_imp_freeze s c h)

/-- C10: in every state reachable from the constructor by calls of
`mousePressEvent`, `mouseMoveEvent`, `mouseReleaseEvent`,
`roi_select_enabled`, `setImage` and `onSmoothImageChanged`, the drag flag
implies the frozen flag. -/
theorem reachable_drag_imp_freeze (s : RatioLayoutedFrame) (hr : Reachable s)
    (hd : s.drag_flag_ = true) : s.image_freeze_ = true := by
  obtain ⟨contents, border, calls, rfl⟩ := hr
  exact run_drag_imp_freeze calls _ (by simp [RatioLayoutedFrame.init]) hd

/-- C10, witness: the state in mid-drag reached by `startDrag`. -/
theorem reachable_drag_imp_freeze_witness :
    Reachable (run (RatioLayoutedFrame.init QRect.null 0) startDrag) ∧
      (run (RatioLayoutedFrame.init QRect.null 0) startDrag).drag_flag_ = true ∧
      (run (RatioLayoutedFrame.init QRect.null 0) startDrag).image_freeze_ = true :=
  ⟨⟨QRect.null, 0, startDrag, rfl⟩, by decide,
    reachable_drag_imp_freeze (run (RatioLayoutedFrame.init QRect.null 0) startDrag)
      ⟨QRect.null, 0, startDrag, rfl⟩ (by decide)⟩

end rqt_image_view
